import Mathlib

/-!
Verification development for the `cmd-nse-vfio` repository.

We shallowly embed the two core components:
* `internal/config/config.go` — the per-service descriptor decoder
  (`ServiceConfig.UnmarshalBinary` and its helpers), together with the
  Go standard-library routines it calls (`strings.Split`, `strings.TrimSpace`,
  `strings.HasPrefix`, `strings.TrimPrefix`, `net.ParseMAC`,
  `strconv.ParseInt` with base 0 and bit size 32);
* `internal/networkservice/mapserver/server.go` — the
  `network service -> (MAC, VLAN)` mapping chain element (`NewServer`,
  `mapServer.Request`).

Strings are embedded as `List Char`, byte slices as `List Nat`
(each element < 256), `int32` as `Int` with explicit range checks in the
integer parser.  Go methods that mutate their receiver are embedded as
functions returning the final receiver state together with the optional
error, so that partial mutation on error paths is observable.
-/

/-! ### Go `strings` helpers -/

/-- Embeds Go `strings.Split(s, sep)` for a one-character, non-empty
separator: the list of substrings of `s` separated by `sep`.  Never
returns `[]`; `goSplit sep [] = [[]]` just as `strings.Split("", sep)`
returns `[""]`. -/
def goSplit (sep : Char) : List Char → List (List Char)
  | [] => [[]]
  | c :: cs =>
    match goSplit sep cs with
    | [] => if c = sep then [[], []] else [[c]]
    | h :: t => if c = sep then [] :: h :: t else (c :: h) :: t

/-- Embeds Go `unicode.IsSpace` (the white-space test used by
`strings.TrimSpace`). -/
def goIsSpace (c : Char) : Bool :=
  let n := c.toNat
  (9 ≤ n && n ≤ 13) || n = 32 || n = 0x85 || n = 0xA0 ||
  n = 0x1680 || (0x2000 ≤ n && n ≤ 0x200A) ||
  n = 0x2028 || n = 0x2029 || n = 0x202F || n = 0x205F || n = 0x3000

/-- Embeds Go `strings.TrimSpace`: drops white space from both ends. -/
def goTrimSpace (s : List Char) : List Char :=
  ((s.dropWhile goIsSpace).reverse.dropWhile goIsSpace).reverse

/-- Embeds Go `strings.HasPrefix pre s` (arguments: the prefix first). -/
def hasPfx : List Char → List Char → Bool
  | [], _ => true
  | _ :: _, [] => false
  | p :: ps, c :: cs => p = c && hasPfx ps cs

/-- Embeds Go `strings.TrimPrefix s pre` (arguments: the prefix first). -/
def dropPfx (pre s : List Char) : List Char :=
  if hasPfx pre s then s.drop pre.length else s

/-! ### Go `net.ParseMAC` and `net.HardwareAddr.String` -/

/-- Hex digit value accepted by Go `net`'s `xtoi` (0-9, a-f, A-F). -/
def hexVal (c : Char) : Option Nat :=
  let n := c.toNat
  if 48 ≤ n ∧ n ≤ 57 then some (n - 48)
  else if 97 ≤ n ∧ n ≤ 102 then some (n - 97 + 10)
  else if 65 ≤ n ∧ n ≤ 70 then some (n - 65 + 10)
  else none

/-- Embeds Go `net`'s `xtoi2(s, e)`: parses the first two characters of
`s` as a hex byte, failing when a third character exists and differs
from `e`. -/
def xtoi2 (e : Char) : List Char → Option Nat
  | a :: b :: rest =>
    if (match rest with | r :: _ => r != e | [] => false : Bool) then none
    else
      match hexVal a, hexVal b with
      | some x, some y => some (16 * x + y)
      | _, _ => none
  | _ => none

/-- The group loop of `net.ParseMAC` for `:`/`-` separated addresses:
reads `n` bytes, three characters apart, each via `xtoi2` with the
separator as the expected following character. -/
def parseMACGroups (sep : Char) : List Char → Nat → Option (List Nat)
  | _, 0 => some []
  | s, n + 1 =>
    match xtoi2 sep s with
    | none => none
    | some b =>
      match parseMACGroups sep (s.drop 3) n with
      | none => none
      | some rest => some (b :: rest)

/-- The group loop of `net.ParseMAC` for `.` separated addresses: reads
`k` four-hex-digit groups, five characters apart, two bytes per group. -/
def parseMACDotGroups : List Char → Nat → Option (List Nat)
  | _, 0 => some []
  | s, k + 1 =>
    match xtoi2 '.' (s.take 2), xtoi2 '.' (s.drop 2) with
    | some b1, some b2 =>
      match parseMACDotGroups (s.drop 5) k with
      | none => none
      | some rest => some (b1 :: b2 :: rest)
    | _, _ => none

/-- Embeds Go `net.ParseMAC`: accepts `:`/`-` separated two-hex-digit
groups or `.` separated four-hex-digit groups, of total length 6, 8 or
20 bytes; returns `none` (Go: `nil, &AddrError{...}`) otherwise. -/
def ParseMAC (s : List Char) : Option (List Nat) :=
  if s.length < 14 then none
  else if s.getD 2 ' ' = ':' ∨ s.getD 2 ' ' = '-' then
    if (s.length + 1) % 3 ≠ 0 then none
    else
      let n := (s.length + 1) / 3
      if n = 6 ∨ n = 8 ∨ n = 20 then parseMACGroups (s.getD 2 ' ') s n
      else none
  else if s.getD 4 ' ' = '.' then
    if (s.length + 1) % 5 ≠ 0 then none
    else
      let n := 2 * ((s.length + 1) / 5)
      if n = 6 ∨ n = 8 ∨ n = 20 then parseMACDotGroups s (n / 2)
      else none
  else none

/-- The hex alphabet of `net.HardwareAddr.String`. -/
def hexDigit : List Char := "0123456789abcdef".data

/-- Two lowercase hex characters of a byte, as in `net.HardwareAddr.String`. -/
def byteHex (b : Nat) : List Char :=
  [hexDigit.getD (b / 16 % 16) '0', hexDigit.getD (b % 16) '0']

/-- Embeds Go `net.HardwareAddr.String`: colon-separated lowercase hex
bytes; the empty address prints as the empty string. -/
def macString : List Nat → List Char
  | [] => []
  | [b] => byteHex b
  | b :: b' :: rest => byteHex b ++ ':' :: macString (b' :: rest)

/-! ### Go `strconv.ParseInt(s, 0, 32)` -/

/-- Number parse failures of Go `strconv`: syntax errors and range
errors (`ErrSyntax` / `ErrRange`). -/
inductive NumErr where
  | syn : NumErr
  | range : NumErr
deriving DecidableEq, Repr

/-- Go `strconv`'s `lower(c)`: sets the ASCII case bit. -/
def lowerChar (c : Char) : Nat := c.toNat ||| 0x20

/-- The scanning loop of Go `strconv`'s `underscoreOK`.  The first
argument records whether the number is hexadecimal; the `Char` state is
Go's `saw` marker (`'^'` start, `'0'` digit or base prefix, `'_'`
underscore, `'!'` other). -/
def underscoreOKLoop (hex : Bool) : Char → List Char → Bool
  | saw, [] => saw ≠ '_'
  | saw, c :: cs =>
    if (48 ≤ c.toNat && c.toNat ≤ 57) || (hex && 97 ≤ lowerChar c && lowerChar c ≤ 102) then
      underscoreOKLoop hex '0' cs
    else if c = '_' then
      if saw ≠ '0' then false else underscoreOKLoop hex '_' cs
    else if saw = '_' then false
    else underscoreOKLoop hex '!' cs

/-- Embeds Go `strconv`'s `underscoreOK`: underscores must sit between
digits (or between a base prefix and a digit). -/
def underscoreOK (s : List Char) : Bool :=
  let t := match s with
    | c :: cs => if c = '-' || c = '+' then cs else c :: cs
    | [] => []
  match t with
  | '0' :: c :: rest =>
    if lowerChar c = 98 || lowerChar c = 111 || lowerChar c = 120 then
      underscoreOKLoop (lowerChar c = 120) '0' rest
    else underscoreOKLoop false '^' t
  | _ => underscoreOKLoop false '^' t

/-- Digit value accepted by Go `strconv.ParseUint`'s main loop
(`0`-`9`, then letters case-insensitively). -/
def goDigit (c : Char) : Option Nat :=
  if 48 ≤ c.toNat ∧ c.toNat ≤ 57 then some (c.toNat - 48)
  else if 97 ≤ lowerChar c ∧ lowerChar c ≤ 122 then some (lowerChar c - 97 + 10)
  else none

/-- The accumulation loop of Go `strconv.ParseUint`: consumes digits in
the given base (skipping underscores, which base-0 mode allows subject
to the final `underscoreOK` check), failing on an invalid digit or on
overflow past `maxVal`.  Returns the value and whether an underscore
was seen. -/
def parseUintLoop (base maxVal : Nat) : Nat → Bool → List Char → Except NumErr (Nat × Bool)
  | n, sawUnd, [] => .ok (n, sawUnd)
  | n, sawUnd, c :: cs =>
    if c = '_' then parseUintLoop base maxVal n true cs
    else
      match goDigit c with
      | none => .error .syn
      | some d =>
        if d ≥ base then .error .syn
        else if n ≥ maxVal / base + 1 then .error .range
        else if n * base + d > maxVal then .error .range
        else parseUintLoop base maxVal (n * base + d) sawUnd cs

/-- Base detection of Go `strconv.ParseUint` in base-0 mode: `0b`/`0o`/`0x`
prefixes, a bare leading `0` meaning octal, else decimal.  Returns the
detected base and the remaining text. -/
def baseDetect : List Char → Nat × List Char
  | '0' :: c :: rest =>
    if rest.length + 2 ≥ 3 && lowerChar c = 98 then (2, rest)
    else if rest.length + 2 ≥ 3 && lowerChar c = 111 then (8, rest)
    else if rest.length + 2 ≥ 3 && lowerChar c = 120 then (16, rest)
    else (8, c :: rest)
  | ['0'] => (8, [])
  | s => (10, s)

/-- Embeds Go `strconv.ParseUint(s, 0, 32)`. -/
def ParseUint032 (s0 : List Char) : Except NumErr Nat :=
  match s0 with
  | [] => .error .syn
  | _ :: _ =>
    let p := baseDetect s0
    match parseUintLoop p.1 (2 ^ 32 - 1) 0 false p.2 with
    | .error e => .error e
    | .ok (n, sawUnd) =>
      if sawUnd && !underscoreOK s0 then .error .syn else .ok n

/-- Embeds Go `strconv.ParseInt(s, 0, 32)`: optional sign, then
`ParseUint` on the rest, then the signed 32-bit range check. -/
def ParseInt032 (s0 : List Char) : Except NumErr Int :=
  match s0 with
  | [] => .error .syn
  | c :: cs =>
    let neg := c = '-'
    let s := if c = '+' || c = '-' then cs else c :: cs
    match ParseUint032 s with
    | .error e => .error e
    | .ok un =>
      if !neg && un ≥ 2 ^ 31 then .error .range
      else if neg && un > 2 ^ 31 then .error .range
      else .ok (if neg then -(un : Int) else (un : Int))

/-! ### `internal/config/config.go` -/

/-- Errors produced by the decoder and its library calls, carrying the
text each Go error message cites. -/
inductive GoError where
  /-- `errors.Errorf("invalid format: %s", text)` citing the whole input. -/
  | invalidFormat (text : List Char) : GoError
  /-- `net.ParseMAC`'s `&AddrError{Err: "invalid MAC address", Addr: s}`. -/
  | macAddrError (addr : List Char) : GoError
  /-- `strconv` syntax error on the given numeral text. -/
  | numSyn (s : List Char) : GoError
  /-- `strconv` range error on the given numeral text. -/
  | numRange (s : List Char) : GoError
  /-- `errors.New("name is empty")` from `ServiceConfig.validate`. -/
  | nameEmpty : GoError
deriving DecidableEq, Repr

/-- Embeds `ServiceConfig` (config.go lines 70-74): per-service name,
hardware address and VLAN tag. -/
structure ServiceConfig where
  Name : List Char
  MACAddr : List Nat
  VLANTag : Int
deriving DecidableEq, Repr

/-- The zero value `new(config.ServiceConfig)` that envconfig hands to
`UnmarshalBinary`. -/
def ServiceConfig.zero : ServiceConfig := ⟨[], [], 0⟩

/-- `addrPrefix` constant of config.go. -/
def addrPfx : List Char := ['a', 'd', 'd', 'r', ':']

/-- `vlanPrefix` constant of config.go. -/
def vlanPfx : List Char := ['v', 'l', 'a', 'n', ':']

/-- Embeds config.go's `trimPrefix`: `strings.TrimPrefix` then
`strings.TrimSpace` (the prefix argument first). -/
def trimPfx (pre s : List Char) : List Char :=
  goTrimSpace (dropPfx pre s)

/-- Embeds config.go's `parseInt32`: `strconv.ParseInt(s, 0, 32)`
narrowed to `int32`; returns `0` together with the error on failure. -/
def parseInt32 (s : List Char) : Except GoError Int :=
  match ParseInt032 s with
  | .ok i => .ok i
  | .error .syn => .error (.numSyn s)
  | .error .range => .error (.numRange s)

/-- Embeds config.go's `validate` (lines 122-127): only a non-empty
`Name` is required. -/
def ServiceConfig.validate (s : ServiceConfig) : Option GoError :=
  if s.Name = [] then some .nameEmpty else none

/-- The `for _, part := range strings.Split(split[0], ";")` loop of
`UnmarshalBinary` (lines 91-104): each part is trimmed and dispatched on
its prefix; `addr:` assigns `MACAddr` (`nil` on parse error), `vlan:`
assigns `VLANTag` (`0` on parse error), anything else is an
`invalid format` error citing the whole input; the first error stops
the loop and is returned together with the receiver state reached. -/
def applyParts (text : List Char) (s : ServiceConfig) :
    List (List Char) → ServiceConfig × Option GoError
  | [] => (s, none)
  | part0 :: rest =>
    let part := goTrimSpace part0
    if hasPfx addrPfx part then
      match ParseMAC (trimPfx addrPfx part) with
      | some mac => applyParts text { s with MACAddr := mac } rest
      | none => ({ s with MACAddr := [] }, some (.macAddrError (trimPfx addrPfx part)))
    else if hasPfx vlanPfx part then
      match parseInt32 (trimPfx vlanPfx part) with
      | .ok v => applyParts text { s with VLANTag := v } rest
      | .error e => ({ s with VLANTag := 0 }, some e)
    else (s, some (.invalidFormat text))

/-- The field-list body `UnmarshalBinary` iterates over: the text
between the first `{` and the following `}` (Go:
`strings.Split(strings.Split(text, "{")[1], "}")[0]`). -/
def fieldBody (text : List Char) : List Char :=
  (goSplit '}' ((goSplit '{' text).getD 1 [])).headD []

/-- Embeds `ServiceConfig.UnmarshalBinary` (config.go lines 79-107) as a
function from the initial receiver state and the input text to the final
receiver state and the optional error:
`s.Name` is assigned the trimmed text before the first `:`; if there is
no `{` the result is `validate`; otherwise the text between the first
`{` and the following `}` is split on `;` and processed by
`applyParts`, then `validate` runs. -/
def ServiceConfig.UnmarshalBinary (s : ServiceConfig) (text : List Char) :
    ServiceConfig × Option GoError :=
  let s1 : ServiceConfig := { s with Name := goTrimSpace ((goSplit ':' text).headD []) }
  if (goSplit '{' text).length < 2 then (s1, s1.validate)
  else
    match applyParts text s1 (goSplit ';' (fieldBody text)) with
    | (s2, some e) => (s2, some e)
    | (s2, none) => (s2, s2.validate)

/-! ### `internal/networkservice/mapserver/server.go` -/

/-- Embeds the networkservice API `EthernetContext` message (the fields
the map server reads or writes, plus the source MAC to witness that
unrelated fields survive). -/
structure EthernetContext where
  SrcMac : List Char
  DstMac : List Char
  VlanTag : Int
deriving DecidableEq, Repr

/-- Embeds the networkservice API `ConnectionContext` message restricted
to its Ethernet sub-context; `none` is Go's `nil` pointer. -/
structure ConnectionContext where
  EthernetContext : Option EthernetContext
deriving DecidableEq, Repr

/-- Embeds the networkservice API `Connection` message: id, requested
network service name, and optional context. -/
structure Connection where
  Id : List Char
  NetworkService : List Char
  Context : Option ConnectionContext
deriving DecidableEq, Repr

/-- Embeds server.go's `entry`: the stored hardware address and VLAN
tag of one service. -/
structure entry where
  macAddr : List Nat
  vlanTag : Int
deriving DecidableEq, Repr

instance : Inhabited entry := ⟨⟨[], 0⟩⟩

/-- Errors of the map server: `errors.Errorf("network service is not
supported: %s", ...)` citing the requested name, plus abstract failures
of the next chain element. -/
inductive SrvError where
  | notSupported (name : List Char) : SrvError
  | nextFailed : SrvError
deriving DecidableEq, Repr

/-- Lookup in the embedded Go map (association list with unique keys). -/
def mapLookup (k : List Char) : List (List Char × entry) → Option entry
  | [] => none
  | (k', v) :: rest => if k' = k then some v else mapLookup k rest

/-- Assignment `m[k] = v` on the embedded Go map: replaces the value at
an existing key, otherwise adds the binding. -/
def mapAssign (k : List Char) (v : entry) : List (List Char × entry) → List (List Char × entry)
  | [] => [(k, v)]
  | (k', v') :: rest => if k' = k then (k, v) :: rest else (k', v') :: mapAssign k v rest

/-- Embeds `mapServer` of server.go: the name-keyed entry table. -/
structure mapServer where
  entries : List (List Char × entry)
deriving DecidableEq, Repr

/-- Embeds `NewServer` (server.go lines 43-57) applied to the service
list `cfg.Services`: assigns `entries[service.Name] = &entry{MACAddr,
VLANTag}` for each service in order. -/
def NewServer (services : List ServiceConfig) : mapServer :=
  ⟨services.foldl (fun m svc => mapAssign svc.Name ⟨svc.MACAddr, svc.VLANTag⟩ m) []⟩

/-- Embeds `mapServer.Request` (server.go lines 59-78) as a function of
the table, the request's connection and the next chain element; returns
the final state of the caller-owned connection together with the
result.  On a lookup miss the connection is untouched and an error is
returned without calling `next`; on a hit, `Context` and its
`EthernetContext` are allocated if `nil`, `DstMac`/`VlanTag` are set
from the entry, and `next` is invoked on the updated request. -/
def mapServer.Request (s : mapServer) (conn : Connection)
    (next : Connection → Except SrvError Connection) :
    Connection × Except SrvError Connection :=
  match mapLookup conn.NetworkService s.entries with
  | none => (conn, .error (.notSupported conn.NetworkService))
  | some e =>
    let ctx := conn.Context.getD ⟨none⟩
    let eth := ctx.EthernetContext.getD ⟨[], [], 0⟩
    let eth' : EthernetContext := { eth with DstMac := macString e.macAddr, VlanTag := e.vlanTag }
    let conn' : Connection := { conn with Context := some { ctx with EthernetContext := some eth' } }
    (conn', next conn')

/-! ### Helper lemmas about the decoder loop -/

/-- One field segment parses successfully: it is recognized (`addr:` or
`vlan:` after trimming) and its value parses. -/
def partOk (p : List Char) : Bool :=
  if hasPfx addrPfx (goTrimSpace p) then (ParseMAC (trimPfx addrPfx (goTrimSpace p))).isSome
  else if hasPfx vlanPfx (goTrimSpace p) then
    match parseInt32 (trimPfx vlanPfx (goTrimSpace p)) with
    | .ok _ => true
    | .error _ => false
  else false

/-- The receiver state after the first statement of `UnmarshalBinary`:
`s.Name = strings.TrimSpace(strings.Split(text, ":")[0])`. -/
def nameAssign (s₀ : ServiceConfig) (text : List Char) : ServiceConfig :=
  { s₀ with Name := goTrimSpace ((goSplit ':' text).headD []) }

theorem unmarshal_eq (s₀ : ServiceConfig) (text : List Char) :
    s₀.UnmarshalBinary text =
      (if (goSplit '{' text).length < 2
       then (nameAssign s₀ text, (nameAssign s₀ text).validate)
       else
         match applyParts text (nameAssign s₀ text) (goSplit ';' (fieldBody text)) with
         | (s2, some e) => (s2, some e)
         | (s2, none) => (s2, s2.validate)) := rfl

theorem applyParts_fst_Name (text : List Char) :
    ∀ (ps : List (List Char)) (s : ServiceConfig), ((applyParts text s ps).1).Name = s.Name := by
  intro ps
  induction ps with
  | nil => intro s; rfl
  | cons p rest ih =>
    intro s
    unfold applyParts
    dsimp only
    split
    · split
      · exact ih _
      · rfl
    · split
      · split
        · exact ih _
        · rfl
      · rfl



theorem applyParts_cons_addr (text : List Char) (s : ServiceConfig)
    (p : List Char) (rest : List (List Char)) (mac : List Nat)
    (ha : hasPfx addrPfx (goTrimSpace p) = true)
    (hm : ParseMAC (trimPfx addrPfx (goTrimSpace p)) = some mac) :
    applyParts text s (p :: rest) = applyParts text { s with MACAddr := mac } rest := by
  conv_lhs => rw [applyParts]
  simp only [ha, eq_self_iff_true, if_true, hm]

theorem applyParts_cons_addr_err (text : List Char) (s : ServiceConfig)
    (p : List Char) (rest : List (List Char))
    (ha : hasPfx addrPfx (goTrimSpace p) = true)
    (hm : ParseMAC (trimPfx addrPfx (goTrimSpace p)) = none) :
    applyParts text s (p :: rest) =
      ({ s with MACAddr := [] }, some (.macAddrError (trimPfx addrPfx (goTrimSpace p)))) := by
  conv_lhs => rw [applyParts]
  simp only [ha, eq_self_iff_true, if_true, hm]

theorem applyParts_cons_vlan (text : List Char) (s : ServiceConfig)
    (p : List Char) (rest : List (List Char)) (v : Int)
    (ha : hasPfx addrPfx (goTrimSpace p) = false)
    (hv : hasPfx vlanPfx (goTrimSpace p) = true)
    (hi : parseInt32 (trimPfx vlanPfx (goTrimSpace p)) = .ok v) :
    applyParts text s (p :: rest) = applyParts text { s with VLANTag := v } rest := by
  conv_lhs => rw [applyParts]
  simp only [ha, hv, eq_self_iff_true, if_true, Bool.false_eq_true, if_false, hi]

theorem applyParts_cons_vlan_err (text : List Char) (s : ServiceConfig)
    (p : List Char) (rest : List (List Char)) (e : GoError)
    (ha : hasPfx addrPfx (goTrimSpace p) = false)
    (hv : hasPfx vlanPfx (goTrimSpace p) = true)
    (hi : parseInt32 (trimPfx vlanPfx (goTrimSpace p)) = .error e) :
    applyParts text s (p :: rest) = ({ s with VLANTag := 0 }, some e) := by
  conv_lhs => rw [applyParts]
  simp only [ha, hv, eq_self_iff_true, if_true, Bool.false_eq_true, if_false, hi]

theorem applyParts_unrecognized (text : List Char) (s : ServiceConfig)
    (p : List Char) (rest : List (List Char))
    (ha : hasPfx addrPfx (goTrimSpace p) = false)
    (hv : hasPfx vlanPfx (goTrimSpace p) = false) :
    applyParts text s (p :: rest) = (s, some (.invalidFormat text)) := by
  conv_lhs => rw [applyParts]
  simp only [ha, hv, Bool.false_eq_true, if_false]

theorem applyParts_cons_ok (text : List Char) (s : ServiceConfig)
    (p : List Char) (rest : List (List Char)) (h : partOk p = true) :
    ∃ s', applyParts text s (p :: rest) = applyParts text s' rest := by
  cases ha : hasPfx addrPfx (goTrimSpace p) with
  | true =>
    cases hm : ParseMAC (trimPfx addrPfx (goTrimSpace p)) with
    | none => exfalso; unfold partOk at h; rw [ha] at h; simp [hm] at h
    | some mac => exact ⟨_, applyParts_cons_addr text s p rest mac ha hm⟩
  | false =>
    cases hv : hasPfx vlanPfx (goTrimSpace p) with
    | true =>
      cases hi : parseInt32 (trimPfx vlanPfx (goTrimSpace p)) with
      | error e => exfalso; unfold partOk at h; rw [ha, hv] at h; simp [hi] at h
      | ok v => exact ⟨_, applyParts_cons_vlan text s p rest v ha hv hi⟩
    | false => exfalso; unfold partOk at h; rw [ha, hv] at h; simp at h

theorem applyParts_bad_isSome (text : List Char) :
    ∀ (ps : List (List Char)) (s : ServiceConfig),
      (∃ p ∈ ps, hasPfx addrPfx (goTrimSpace p) = false ∧ hasPfx vlanPfx (goTrimSpace p) = false) →
      ∃ e, (applyParts text s ps).2 = some e := by
  intro ps
  induction ps with
  | nil => intro s h; rcases h with ⟨p, hp, _⟩; cases hp
  | cons q rest ih =>
    intro s h
    rcases h with ⟨p, hp, hpa, hpv⟩
    rcases List.mem_cons.mp hp with rfl | hmem
    · rw [applyParts_unrecognized text s p rest hpa hpv]
      exact ⟨_, rfl⟩
    · cases ha : hasPfx addrPfx (goTrimSpace q) with
      | true =>
        cases hm : ParseMAC (trimPfx addrPfx (goTrimSpace q)) with
        | none => rw [applyParts_cons_addr_err text s q rest ha hm]; exact ⟨_, rfl⟩
        | some mac =>
          rw [applyParts_cons_addr text s q rest mac ha hm]
          exact ih _ ⟨p, hmem, hpa, hpv⟩
      | false =>
        cases hv : hasPfx vlanPfx (goTrimSpace q) with
        | true =>
          cases hi : parseInt32 (trimPfx vlanPfx (goTrimSpace q)) with
          | error e => rw [applyParts_cons_vlan_err text s q rest e ha hv hi]; exact ⟨_, rfl⟩
          | ok v =>
            rw [applyParts_cons_vlan text s q rest v ha hv hi]
            exact ih _ ⟨p, hmem, hpa, hpv⟩
        | false =>
          rw [applyParts_unrecognized text s q rest ha hv]
          exact ⟨_, rfl⟩

theorem applyParts_pre_ok (text : List Char) :
    ∀ (pre l : List (List Char)) (s : ServiceConfig), (∀ q ∈ pre, partOk q = true) →
      ∃ s', applyParts text s (pre ++ l) = applyParts text s' l := by
  intro pre
  induction pre with
  | nil => intro l s _; exact ⟨s, rfl⟩
  | cons q rest ih =>
    intro l s h
    rcases applyParts_cons_ok text s q (rest ++ l) (h q (List.mem_cons_self q rest)) with ⟨s', hs'⟩
    rw [List.cons_append, hs']
    exact ih l s' fun r hr => h r (List.mem_cons_of_mem q hr)

theorem unmarshalBinary_fst_Name (s₀ : ServiceConfig) (text : List Char) :
    ((s₀.UnmarshalBinary text).1).Name = goTrimSpace ((goSplit ':' text).headD []) := by
  rw [unmarshal_eq]
  split
  · rfl
  · split
    · rename_i s2 e h
      have hn := applyParts_fst_Name text (goSplit ';' (fieldBody text)) (nameAssign s₀ text)
      rw [h] at hn
      exact hn
    · rename_i s2 h
      have hn := applyParts_fst_Name text (goSplit ';' (fieldBody text)) (nameAssign s₀ text)
      rw [h] at hn
      exact hn

/-! ### Claims about the descriptor decoder -/

/-- Claim C1.  The claim states that decoding
`"pingpong@worker.domain: { addr: 0a:55:44:33:22:11 }"` yields an entry
named `"pingpong"` with domain `"worker.domain"` (plus the MAC, a zero
VLAN tag, a default payload and empty labels).  The code under
verification instead stores the whole text before the first `:` —
`"pingpong@worker.domain"` — as the name, and its `ServiceConfig` has no
domain, payload or label field at all; this theorem evaluates the
decoder at exactly that input.  (The repository's own test requires
`Name = "pingpong"` and `Domain = "worker.domain"` here, so the claim
describes the intended behaviour and the code is at fault.) -/
theorem c1_decode_pingpong_descriptor :
    ServiceConfig.zero.UnmarshalBinary
        "pingpong@worker.domain: { addr: 0a:55:44:33:22:11 }".data =
      ({ Name := "pingpong@worker.domain".data,
         MACAddr := [0x0a, 0x55, 0x44, 0x33, 0x22, 0x11], VLANTag := 0 }, none) ∧
    "pingpong@worker.domain".data ≠ "pingpong".data := by
  constructor
  · rfl
  · decide

/-- Claim C2.  The claim states that the name is the trimmed text left
of the first `@` and that any input without `@` fails with an
"invalid format" error.  The code splits on `:` instead and never looks
at `@`: this theorem shows an `@`-free descriptor that decodes without
error, with the text before the first `:` as its name. -/
theorem c2_at_free_input_decodes :
    ServiceConfig.zero.UnmarshalBinary "svc: { addr: 0a:55:44:33:22:11 }".data =
      ({ Name := "svc".data,
         MACAddr := [0x0a, 0x55, 0x44, 0x33, 0x22, 0x11], VLANTag := 0 }, none) ∧
    '@' ∉ "svc: { addr: 0a:55:44:33:22:11 }".data := by
  constructor
  · rfl
  · decide

/-- Claim C3.  The claim states that every input without `{` fails with
a malformed-descriptor error.  In the code, a missing `{` makes
`UnmarshalBinary` return `validate()`, which succeeds whenever the name
is non-empty: this theorem shows a brace-free input decoding without
error. -/
theorem c3_braceless_input_decodes :
    ServiceConfig.zero.UnmarshalBinary "svc".data =
      ({ Name := "svc".data, MACAddr := [], VLANTag := 0 }, none) ∧
    '{' ∉ "svc".data := by
  constructor
  · rfl
  · decide

/-- Claim C4.  The claim states that validation rejects entries whose
name or domain is empty or whose MAC address is empty or ill-formed.
The code's `validate` checks only the name (and the struct has no
domain): this theorem shows a successful decode whose `MACAddr` is the
empty (zero-length) address. -/
theorem c4_decodes_with_empty_mac :
    ServiceConfig.zero.UnmarshalBinary "svc: { vlan: 5 }".data =
      ({ Name := "svc".data, MACAddr := [], VLANTag := 5 }, none) := by
  rfl

/-- Claim C5.  The claim states that field segments that trim to the
empty string are skipped, so a well-formed body with a trailing `;`
decodes successfully.  In the code an empty trimmed segment falls to
the `default` branch of the dispatch switch and aborts the decode with
an "invalid format" error: this theorem evaluates the decoder at such
an input. -/
theorem c5_trailing_semicolon_fails :
    ServiceConfig.zero.UnmarshalBinary
        "pingpong@worker.domain: { addr: 0a:55:44:33:22:11; }".data =
      ({ Name := "pingpong@worker.domain".data,
         MACAddr := [0x0a, 0x55, 0x44, 0x33, 0x22, 0x11], VLANTag := 0 },
       some (.invalidFormat "pingpong@worker.domain: { addr: 0a:55:44:33:22:11; }".data)) := by
  rfl

/-- Claim C6: for every input containing a `{`-delimited field list with
a trimmed non-empty segment recognized by neither `addr:` nor `vlan:`
(the two prefixes the code knows), the decode fails; and when every
segment before the offending one parses, the error is exactly
`invalid format: <text>`, citing the original input. -/
theorem c6_unrecognized_segment_fails (text : List Char) (s₀ : ServiceConfig)
    (pre post : List (List Char)) (p : List Char)
    (hb : 2 ≤ (goSplit '{' text).length)
    (hsplit : goSplit ';' (fieldBody text) = pre ++ p :: post)
    (_hne : goTrimSpace p ≠ [])
    (ha : hasPfx addrPfx (goTrimSpace p) = false)
    (hv : hasPfx vlanPfx (goTrimSpace p) = false) :
    (∃ e, (s₀.UnmarshalBinary text).2 = some e) ∧
      ((∀ q ∈ pre, partOk q = true) →
        (s₀.UnmarshalBinary text).2 = some (.invalidFormat text)) := by
  have hlt : ¬ (goSplit '{' text).length < 2 := by omega
  constructor
  · have hmem : p ∈ goSplit ';' (fieldBody text) := by
      rw [hsplit]; exact List.mem_append_right _ (List.mem_cons_self _ _)
    rcases applyParts_bad_isSome text (goSplit ';' (fieldBody text)) (nameAssign s₀ text)
        ⟨p, hmem, ha, hv⟩ with ⟨e, he⟩
    rw [unmarshal_eq, if_neg hlt]
    cases happ : applyParts text (nameAssign s₀ text) (goSplit ';' (fieldBody text)) with
    | mk s2 oe =>
      rw [happ] at he
      cases oe with
      | none => simp at he
      | some e' => exact ⟨e', rfl⟩
  · intro hpre
    rcases applyParts_pre_ok text pre (p :: post) (nameAssign s₀ text) hpre with ⟨s', hs'⟩
    rw [unmarshal_eq, if_neg hlt, hsplit, hs',
      applyParts_unrecognized text s' p post ha hv]

/-- Witness for claim C6 at the spec's own example `svc@d: { foo: bar }`. -/
theorem c6_unrecognized_segment_fails_witness :
    (ServiceConfig.zero.UnmarshalBinary "svc@d: { foo: bar }".data).2 =
      some (.invalidFormat "svc@d: { foo: bar }".data) :=
  (c6_unrecognized_segment_fails "svc@d: { foo: bar }".data ServiceConfig.zero
      [] [] " foo: bar ".data (by decide) (by decide) (by decide) (by decide)
      (by decide)).2 (fun q hq => absurd hq (List.not_mem_nil q))

/-- Claim C10: `UnmarshalBinary` is not atomic on failure.  First, for
every initial receiver state and every input, the final receiver's
`Name` is the trimmed text before the first `:` — it is assigned before
any error can be returned.  Second, at the concrete input
`"svc@d: { vlan: 7; addr: xx }"` the decode returns a MAC parse error
while the returned receiver already carries the mutated `Name` and the
`VLANTag` from the earlier well-formed `vlan:` segment. -/
theorem c10_name_assigned_before_error :
    (∀ (s₀ : ServiceConfig) (text : List Char),
      ((s₀.UnmarshalBinary text).1).Name = goTrimSpace ((goSplit ':' text).headD [])) ∧
    ServiceConfig.zero.UnmarshalBinary "svc@d: { vlan: 7; addr: xx }".data =
      ({ Name := "svc@d".data, MACAddr := [], VLANTag := 7 },
       some (.macAddrError "xx".data)) :=
  ⟨unmarshalBinary_fst_Name, by rfl⟩

/-! ### Helper lemmas about the mapping table -/

theorem mapLookup_assign (k : List Char) (v : entry) :
    ∀ (m : List (List Char × entry)) (n : List Char),
      mapLookup n (mapAssign k v m) = if k = n then some v else mapLookup n m := by
  intro m
  induction m with
  | nil => intro n; rfl
  | cons kv rest ih =>
    intro n
    obtain ⟨k', v'⟩ := kv
    by_cases hk : k' = k
    · subst hk
      simp only [mapAssign, if_pos rfl, mapLookup]
      by_cases hn : k' = n <;> simp [hn]
    · simp only [mapAssign, if_neg hk, mapLookup]
      by_cases hn : k' = n
      · subst hn
        have : ¬ k = k' := fun h => hk h.symm
        simp [this]
      · simp [hn, ih n]

theorem mapAssign_keys (k : List Char) (v : entry) :
    ∀ (m : List (List Char × entry)),
      (mapAssign k v m).map Prod.fst =
        if k ∈ m.map Prod.fst then m.map Prod.fst else m.map Prod.fst ++ [k] := by
  intro m
  induction m with
  | nil => simp [mapAssign]
  | cons kv rest ih =>
    obtain ⟨k', v'⟩ := kv
    by_cases hk : k' = k
    · subst hk
      have hcond : k' ∈ ((k', v') :: rest).map Prod.fst := by
        rw [List.map_cons]
        exact List.mem_cons_self _ _
      rw [mapAssign, if_pos rfl, if_pos hcond]
      rw [List.map_cons, List.map_cons]
    · simp only [mapAssign, if_neg hk, List.map_cons, List.mem_cons, ih]
      have hne : ¬ k = k' := fun h => hk h.symm
      by_cases hmem : k ∈ rest.map Prod.fst <;> simp [hne, hmem]

theorem find?_append {α : Type} (p : α → Bool) :
    ∀ (l₁ l₂ : List α), (l₁ ++ l₂).find? p = ((l₁.find? p).orElse fun _ => l₂.find? p) := by
  intro l₁ l₂
  induction l₁ with
  | nil => simp [List.find?]
  | cons a t ih =>
    cases h : p a <;> simp [List.find?, h, ih]

theorem newServer_lookup_aux (n : List Char) :
    ∀ (l : List ServiceConfig) (m : List (List Char × entry)),
      mapLookup n (l.foldl (fun m svc => mapAssign svc.Name ⟨svc.MACAddr, svc.VLANTag⟩ m) m) =
        match l.reverse.find? (fun svc => svc.Name == n) with
        | some svc => some ⟨svc.MACAddr, svc.VLANTag⟩
        | none => mapLookup n m := by
  intro l
  induction l with
  | nil => intro m; rfl
  | cons svc rest ih =>
    intro m
    rw [List.foldl_cons, ih, List.reverse_cons, find?_append]
    cases hr : rest.reverse.find? (fun svc => svc.Name == n) with
    | some s' => rfl
    | none =>
      simp only [Option.orElse_none, Option.none_orElse, List.find?]
      cases hsvc : (svc.Name == n) with
      | true =>
        have : svc.Name = n := by exact_mod_cast eq_of_beq hsvc
        rw [mapLookup_assign]
        simp [this]
      | false =>
        have : ¬ svc.Name = n := by
          intro h; rw [h] at hsvc; simp at hsvc
        rw [mapLookup_assign]
        simp [this]

theorem newServer_keys_aux :
    ∀ (l : List ServiceConfig) (m : List (List Char × entry)),
      (m.map Prod.fst).Nodup →
      ((l.foldl (fun m svc => mapAssign svc.Name ⟨svc.MACAddr, svc.VLANTag⟩ m) m).map Prod.fst).Nodup ∧
      ((l.foldl (fun m svc => mapAssign svc.Name ⟨svc.MACAddr, svc.VLANTag⟩ m) m).map Prod.fst).toFinset =
        (m.map Prod.fst).toFinset ∪ (l.map (fun svc => svc.Name)).toFinset := by
  intro l
  induction l with
  | nil => intro m h; exact ⟨h, by simp⟩
  | cons svc rest ih =>
    intro m h
    have hstep : ((mapAssign svc.Name ⟨svc.MACAddr, svc.VLANTag⟩ m).map Prod.fst).Nodup := by
      rw [mapAssign_keys]
      by_cases hmem : svc.Name ∈ m.map Prod.fst
      · simpa [hmem] using h
      · simp only [hmem, if_false]
        simp [List.nodup_append, h, hmem]
    have hstepF : ((mapAssign svc.Name ⟨svc.MACAddr, svc.VLANTag⟩ m).map Prod.fst).toFinset =
        insert svc.Name (m.map Prod.fst).toFinset := by
      rw [mapAssign_keys]
      by_cases hmem : svc.Name ∈ m.map Prod.fst
      · rw [if_pos hmem, Finset.insert_eq_self.mpr (List.mem_toFinset.mpr hmem)]
      · rw [if_neg hmem, List.toFinset_append]
        simp [Finset.union_comm, Finset.insert_eq]
    rcases ih (mapAssign svc.Name ⟨svc.MACAddr, svc.VLANTag⟩ m) hstep with ⟨h1, h2⟩
    refine ⟨h1, ?_⟩
    rw [List.foldl_cons, h2, hstepF]
    simp [Finset.insert_union, Finset.union_insert]

/-! ### Claims about the map server -/

/-- Claim C7: for every table and every request whose service name is
not a key of the table, `Request` returns the
"network service is not supported" error naming the requested service,
and the caller's connection object is returned completely unchanged. -/
theorem c7_miss_rejects_without_mutation (s : mapServer) (conn : Connection)
    (next : Connection → Except SrvError Connection)
    (h : mapLookup conn.NetworkService s.entries = none) :
    s.Request conn next = (conn, .error (.notSupported conn.NetworkService)) := by
  unfold mapServer.Request
  rw [h]

/-- Witness for claim C7: an empty table misses on `"unknown"`. -/
theorem c7_miss_rejects_without_mutation_witness :
    (mapServer.mk []).Request ⟨"1".data, "unknown".data, none⟩ (fun c => .ok c) =
      (⟨"1".data, "unknown".data, none⟩, .error (.notSupported "unknown".data)) :=
  c7_miss_rejects_without_mutation (mapServer.mk []) ⟨"1".data, "unknown".data, none⟩
    (fun c => .ok c) rfl

/-- Claim C8: for every table and every request whose service name is a
key of the table, `Request` ensures the connection's context and
Ethernet context exist, sets the Ethernet destination MAC to the
textual form of the stored hardware address and the VLAN tag to the
stored tag, leaves the other connection fields unchanged, and returns
the next chain element's result on the updated request. -/
theorem c8_hit_fills_ethernet_and_forwards (s : mapServer) (conn : Connection)
    (next : Connection → Except SrvError Connection) (e : entry)
    (h : mapLookup conn.NetworkService s.entries = some e) :
    ∃ cc ec, (s.Request conn next).1.Context = some cc ∧
      cc.EthernetContext = some ec ∧
      ec.DstMac = macString e.macAddr ∧
      ec.VlanTag = e.vlanTag ∧
      (s.Request conn next).1.Id = conn.Id ∧
      (s.Request conn next).1.NetworkService = conn.NetworkService ∧
      (s.Request conn next).2 = next (s.Request conn next).1 := by
  unfold mapServer.Request
  rw [h]
  exact ⟨_, _, rfl, rfl, rfl, rfl, rfl, rfl, rfl⟩

/-- Witness for claim C8: the table built from the `pingpong` service
of the repository's test hits on `"pingpong"` and stamps
`0a:55:44:33:22:11` / VLAN `0`. -/
theorem c8_hit_fills_ethernet_and_forwards_witness :
    ∃ cc ec,
      ((NewServer [⟨"pingpong".data, [0x0a, 0x55, 0x44, 0x33, 0x22, 0x11], 0⟩]).Request
          ⟨"1".data, "pingpong".data, none⟩ (fun c => .ok c)).1.Context = some cc ∧
      cc.EthernetContext = some ec ∧
      ec.DstMac = macString [0x0a, 0x55, 0x44, 0x33, 0x22, 0x11] ∧
      ec.VlanTag = 0 ∧
      ((NewServer [⟨"pingpong".data, [0x0a, 0x55, 0x44, 0x33, 0x22, 0x11], 0⟩]).Request
          ⟨"1".data, "pingpong".data, none⟩ (fun c => .ok c)).1.Id = "1".data ∧
      ((NewServer [⟨"pingpong".data, [0x0a, 0x55, 0x44, 0x33, 0x22, 0x11], 0⟩]).Request
          ⟨"1".data, "pingpong".data, none⟩ (fun c => .ok c)).1.NetworkService = "pingpong".data ∧
      ((NewServer [⟨"pingpong".data, [0x0a, 0x55, 0x44, 0x33, 0x22, 0x11], 0⟩]).Request
          ⟨"1".data, "pingpong".data, none⟩ (fun c => .ok c)).2 =
        (fun c => (.ok c : Except SrvError Connection))
          (((NewServer [⟨"pingpong".data, [0x0a, 0x55, 0x44, 0x33, 0x22, 0x11], 0⟩]).Request
            ⟨"1".data, "pingpong".data, none⟩ (fun c => .ok c)).1) :=
  c8_hit_fills_ethernet_and_forwards
    (NewServer [⟨"pingpong".data, [0x0a, 0x55, 0x44, 0x33, 0x22, 0x11], 0⟩])
    ⟨"1".data, "pingpong".data, none⟩ (fun c => .ok c)
    ⟨[0x0a, 0x55, 0x44, 0x33, 0x22, 0x11], 0⟩ rfl

/-- Claim C9: for every service list, the table built by `NewServer`
has as many entries as there are distinct names in the list, and lookup
of any name returns the entry of the *last* service with that name in
list order (last-wins overwrite), or nothing when the name is absent. -/
theorem c9_table_distinct_size_last_wins (l : List ServiceConfig) :
    (NewServer l).entries.length = (l.map (fun svc => svc.Name)).toFinset.card ∧
    ∀ n : List Char,
      mapLookup n (NewServer l).entries =
        (l.reverse.find? (fun svc => svc.Name == n)).map
          (fun svc => entry.mk svc.MACAddr svc.VLANTag) := by
  constructor
  · rcases newServer_keys_aux l [] List.nodup_nil with ⟨h1, h2⟩
    have hlen : ((NewServer l).entries.map Prod.fst).length =
        ((NewServer l).entries.map Prod.fst).toFinset.card :=
      (List.toFinset_card_of_nodup h1).symm
    rw [List.length_map] at hlen
    rw [hlen]
    show ((l.foldl (fun m svc => mapAssign svc.Name ⟨svc.MACAddr, svc.VLANTag⟩ m) []).map
        Prod.fst).toFinset.card = _
    rw [h2]
    simp
  · intro n
    show mapLookup n (l.foldl (fun m svc => mapAssign svc.Name ⟨svc.MACAddr, svc.VLANTag⟩ m) []) = _
    rw [newServer_lookup_aux n l []]
    cases hr : l.reverse.find? (fun svc => svc.Name == n) with
    | some svc => rfl
    | none => rfl
